import Mathlib

/-!
A formalisation of the esm.sh build pipeline (`server/build.go`) as a shallow
embedding in Lean 4.  Pure fragments of the Go code (fingerprinting, peer
classification, import-meta resolution, the post-processor's prelude
construction) become Lean functions; the stateful fragments (the cache lookup
at the head of `build`, the esbuild retry loop, the overall error/cleanup
behaviour of `build`) become functions over explicit state and environment
oracles.  Machine words inside SHA-1 are `Nat` reduced mod `2 ^ 32`.
-/

namespace EsmBuild

/-- Modelled from the spec: the repository's `module` type (a *PackageRef*,
`(name, version, submodule)`); its definition is not under the provided
sources (only `moduleSlice` uses in `build.go` are). -/
structure Module where
  name : String
  version : String
  submodule : String
deriving DecidableEq

/-- Modelled from the spec: `module.String()` renders the import ref as
`name@version`, with `/submodule` appended when the submodule is non-empty
(glossary: import path is `<name>[/<submodule>]`). -/
def Module.render (m : Module) : String :=
  m.name ++ "@" ++ m.version ++ (if m.submodule = "" then "" else "/" ++ m.submodule)

/-- Modelled from the spec: `moduleSlice.String()` joins the rendered refs.
The spec describes the externals string as "external refs concatenated"; the
separator does not affect any claim settled here. -/
def moduleSliceString (l : List Module) : String :=
  String.intercalate "," (l.map Module.render)

/-- `buildOptions` of `server/build.go`. -/
structure BuildOptions where
  packages : List Module
  external : List Module
  target : String
  isDev : Bool
deriving DecidableEq

/-- `var buildVersion = 1` in `server/build.go`. -/
def buildVersion : Nat := 1

/-- Go `path.Base`: strip trailing slashes, keep the last path element;
`""` gives `"."`, an all-slash path gives `"/"`. -/
def pathBase (s : String) : String :=
  if s = "" then "." else
  let t := (s.data.reverse.dropWhile (fun c => c == '/')).reverse
  if t = [] then "/" else
  String.mk ((t.reverse.takeWhile (fun c => !(c == '/'))).reverse)

/-- Does `pat` occur at the head of `l`? -/
def listStartsWith : List Char → List Char → Bool
  | _, [] => true
  | [], _ :: _ => false
  | x :: xs, y :: ys => x == y && listStartsWith xs ys

/-- Fuelled worker for `replaceAll`; the fuel (initially the string length)
only forces structural recursion and is never exhausted early. -/
def replaceChars : Nat → List Char → List Char → List Char → List Char
  | 0, s, _, _ => s
  | _ + 1, [], _, _ => []
  | fuel + 1, c :: cs, pat, rep =>
    if pat ≠ [] ∧ listStartsWith (c :: cs) pat then
      rep ++ replaceChars fuel ((c :: cs).drop pat.length) pat rep
    else c :: replaceChars fuel cs pat rep

/-- Go `strings.ReplaceAll`: replace every non-overlapping occurrence of
`pat`, scanning left to right (the empty-pattern case, unused here, returns
the string unchanged). -/
def replaceAll (s pat rep : String) : String :=
  String.mk (replaceChars s.data.length s.data pat.data rep.data)

/-! ### SHA-1 and base32, as used by the multi-package fingerprint

`build` hashes the canonical string with `crypto/sha1` and encodes the digest
with `encoding/base32` (`StdEncoding`), lower-cased.  Both are embedded here
over byte lists (`Nat` values `< 256`). -/

/-- `2 ^ 32`, the word modulus of SHA-1. -/
def M32 : Nat := 4294967296

/-- Rotate a 32-bit word (a `Nat < 2 ^ 32`) left by `n`. -/
def rotl (n x : Nat) : Nat :=
  ((x <<< n) % M32) ||| (x >>> (32 - n))

/-- Split a list into chunks of `n` elements (`n > 0`). -/
def chunks (n : Nat) : List α → List (List α)
  | [] => []
  | x :: xs =>
    if _h : n = 0 then [] else
      (x :: xs).take n :: chunks n ((x :: xs).drop n)
termination_by l => l.length
decreasing_by
  simp [List.length_drop]
  omega

/-- Big-endian bytes of a 64-bit length word. -/
def be64 (n : Nat) : List Nat :=
  [n >>> 56 % 256, n >>> 48 % 256, n >>> 40 % 256, n >>> 32 % 256,
   n >>> 24 % 256, n >>> 16 % 256, n >>> 8 % 256, n % 256]

/-- Big-endian bytes of a 32-bit word. -/
def wordBytes (w : Nat) : List Nat :=
  [w >>> 24 % 256, w >>> 16 % 256, w >>> 8 % 256, w % 256]

/-- SHA-1 padding: `0x80`, zeros to 56 mod 64, then the bit length. -/
def sha1pad (msg : List Nat) : List Nat :=
  let len := msg.length
  let zeros := (64 + 55 - len % 64) % 64
  msg ++ [128] ++ List.replicate zeros 0 ++ be64 (len * 8)

/-- Four big-endian bytes to a 32-bit word. -/
def bytesToWord (b : List Nat) : Nat :=
  b.foldl (fun acc x => acc * 256 + x) 0

/-- The SHA-1 round function `f_t`. -/
def sha1f (t b c d : Nat) : Nat :=
  if t < 20 then (b &&& c) ||| ((b ^^^ 4294967295) &&& d)
  else if t < 40 then b ^^^ c ^^^ d
  else if t < 60 then (b &&& c) ||| (b &&& d) ||| (c &&& d)
  else b ^^^ c ^^^ d

/-- The SHA-1 round constant `K_t`. -/
def sha1k (t : Nat) : Nat :=
  if t < 20 then 1518500249
  else if t < 40 then 1859775393
  else if t < 60 then 2400959708
  else 3395469782

/-- Extend the 16 message words of one block to the 80-word schedule. -/
def sha1schedule (w16 : List Nat) : Array Nat :=
  (List.range 64).foldl
    (fun w _ =>
      let n := w.size
      w.push (rotl 1 (w.getD (n - 3) 0 ^^^ w.getD (n - 8) 0 ^^^
                      w.getD (n - 14) 0 ^^^ w.getD (n - 16) 0)))
    w16.toArray

/-- Compress one 64-byte block into the running 5-word state. -/
def sha1block (h : List Nat) (block : List Nat) : List Nat :=
  let w := sha1schedule ((chunks 4 block).map bytesToWord)
  let h0 := h.getD 0 0
  let h1 := h.getD 1 0
  let h2 := h.getD 2 0
  let h3 := h.getD 3 0
  let h4 := h.getD 4 0
  let s := (List.range 80).foldl
    (fun (s : Nat × Nat × Nat × Nat × Nat) t =>
      let (a, b, c, d, e) := s
      let temp := (rotl 5 a + sha1f t b c d + e + sha1k t + w.getD t 0) % M32
      (temp, a, rotl 30 b, c, d))
    (h0, h1, h2, h3, h4)
  [(h0 + s.1) % M32, (h1 + s.2.1) % M32, (h2 + s.2.2.1) % M32,
   (h3 + s.2.2.2.1) % M32, (h4 + s.2.2.2.2) % M32]

/-- SHA-1 of a byte list: the 20 digest bytes. -/
def sha1 (msg : List Nat) : List Nat :=
  let blocks := chunks 64 (sha1pad msg)
  let h := blocks.foldl sha1block
    [1732584193, 4023233417, 2562383102, 271733878, 3285377520]
  h.flatMap wordBytes

/-- The RFC 4648 base32 alphabet used by Go's `base32.StdEncoding`. -/
def base32alphabet : List Char := "ABCDEFGHIJKLMNOPQRSTUVWXYZ234567".data

/-- The eight bits of a byte, most significant first. -/
def byteBits (n : Nat) : List Bool :=
  (List.range 8).map (fun i => n >>> (7 - i) &&& 1 == 1)

/-- `base32.StdEncoding.EncodeToString`: 5-bit groups mapped through the
alphabet, `=`-padded to a multiple of 8 characters (a 20-byte SHA-1 digest
produces exactly 32 characters, no padding). -/
def base32encode (bytes : List Nat) : String :=
  let groups := chunks 5 (bytes.flatMap byteBits)
  let chars := groups.map (fun g =>
    let g5 := g ++ List.replicate (5 - g.length) false
    base32alphabet.getD (g5.foldl (fun acc b => acc * 2 + (if b then 1 else 0)) 0) 'A')
  String.mk (chars ++ List.replicate ((8 - chars.length % 8) % 8) '=')

/-- The UTF-8 bytes of a string, as written into the hash by `fmt.Fprintf`. -/
def strBytes (s : String) : List Nat :=
  s.toUTF8.toList.map UInt8.toNat

/-! ### Sorting of `moduleSlice`

`build` calls `sort.Sort` on both lists before hashing.  The `Less` method of
`moduleSlice` is not under the provided sources; modelled from the spec:
"sort order must be total (lexicographic by `name`, then `version`, then
`submodule`)". -/

/-- Modelled from the spec: the total lexicographic order on package refs. -/
def modLE (a b : Module) : Prop :=
  a.name < b.name ∨ (a.name = b.name ∧
    (a.version < b.version ∨ (a.version = b.version ∧ a.submodule ≤ b.submodule)))

instance : DecidableRel modLE := fun a b => by
  unfold modLE; infer_instance

instance : IsTotal Module modLE where
  total a b := by
    unfold modLE
    rcases lt_trichotomy a.name b.name with h | h | h
    · exact Or.inl (Or.inl h)
    · rcases lt_trichotomy a.version b.version with h2 | h2 | h2
      · exact Or.inl (Or.inr ⟨h, Or.inl h2⟩)
      · rcases le_total a.submodule b.submodule with h3 | h3
        · exact Or.inl (Or.inr ⟨h, Or.inr ⟨h2, h3⟩⟩)
        · exact Or.inr (Or.inr ⟨h.symm, Or.inr ⟨h2.symm, h3⟩⟩)
      · exact Or.inr (Or.inr ⟨h.symm, Or.inl h2⟩)
    · exact Or.inr (Or.inl h)

instance : IsTrans Module modLE where
  trans a b c hab hbc := by
    unfold modLE at *
    rcases hab with h1 | ⟨e1, h1⟩
    · rcases hbc with h2 | ⟨e2, h2⟩
      · exact Or.inl (h1.trans h2)
      · exact Or.inl (e2 ▸ h1)
    · rcases hbc with h2 | ⟨e2, h2⟩
      · exact Or.inl (e1 ▸ h2)
      · refine Or.inr ⟨e1.trans e2, ?_⟩
        rcases h1 with h1 | ⟨f1, h1⟩
        · rcases h2 with h2 | ⟨f2, h2⟩
          · exact Or.inl (h1.trans h2)
          · exact Or.inl (f2 ▸ h1)
        · rcases h2 with h2 | ⟨f2, h2⟩
          · exact Or.inl (f1 ▸ h2)
          · exact Or.inr ⟨f1.trans f2, h1.trans h2⟩

instance : IsAntisymm Module modLE where
  antisymm a b hab hba := by
    unfold modLE at *
    obtain ⟨na, va, sa⟩ := a
    obtain ⟨nb, vb, sb⟩ := b
    simp only [Module.mk.injEq]
    simp only at hab hba
    rcases hab with h1 | ⟨e1, h1⟩
    · rcases hba with h2 | ⟨e2, h2⟩
      · exact absurd (h1.trans h2) (lt_irrefl _)
      · exact absurd h1 (e2 ▸ lt_irrefl _)
    · rcases hba with h2 | ⟨e2, h2⟩
      · exact absurd h2 (e1 ▸ lt_irrefl _)
      · refine ⟨e1, ?_⟩
        rcases h1 with h1 | ⟨f1, h1⟩
        · rcases h2 with h2 | ⟨f2, h2⟩
          · exact absurd (h1.trans h2) (lt_irrefl _)
          · exact absurd h1 (f2 ▸ lt_irrefl _)
        · rcases h2 with h2 | ⟨f2, h2⟩
          · exact absurd h2 (f1 ▸ lt_irrefl _)
          · exact ⟨f1, le_antisymm h1 h2⟩

/-- `sort.Sort` on a `moduleSlice`: any sorting algorithm produces the same
result for a total antisymmetric order, embedded via insertion sort. -/
def sortModules (l : List Module) : List Module :=
  List.insertionSort modLE l

theorem sortModules_perm_eq {l1 l2 : List Module} (h : l1.Perm l2) :
    sortModules l1 = sortModules l2 :=
  List.eq_of_perm_of_sorted
    ((List.perm_insertionSort _ _).trans (h.trans (List.perm_insertionSort _ _).symm))
    (List.sorted_insertionSort _ _) (List.sorted_insertionSort _ _)

/-! ### BuildID construction (`build`, lines 74–95) -/

/-- The single-package BuildID (`build`, lines 75–88). -/
def singleBuildID (pkg : Module) (external : List Module) (target : String)
    (isDev : Bool) : String :=
  let filename0 := pathBase pkg.name
  let target1 :=
    if external.length > 0 then
      "external=" ++ replaceAll (moduleSliceString external) "/" "_" ++ "/" ++ target
    else target
  let filename1 := if pkg.submodule ≠ "" then pkg.submodule else filename0
  let filename2 := if isDev then filename1 ++ ".development" else filename1
  "v" ++ toString buildVersion ++ "/" ++ pkg.name ++ "@" ++ pkg.version ++ "/" ++
    target1 ++ "/" ++ filename2

/-- The multi-package BuildID (`build`, lines 89–95): sort both lists, hash
the canonical string, lower-case base32. -/
def bundleBuildID (opts : BuildOptions) : String :=
  let ps := sortModules opts.packages
  let es := sortModules opts.external
  let canon := "v" ++ toString buildVersion ++ "/" ++ moduleSliceString ps ++ "/" ++
    moduleSliceString es ++ "/" ++ opts.target ++ "/" ++
    (if opts.isDev then "true" else "false")
  "bundle-" ++ (base32encode (sha1 (strBytes canon))).toLower

/-- The BuildID `build` computes (`none` for an empty package list, mirroring
the `"no packages"` error). -/
def buildIDOf (opts : BuildOptions) : Option String :=
  if opts.packages.length = 0 then none
  else if opts.packages.length = 1 then
    some (singleBuildID (opts.packages.headD (Module.mk "" "" "")) opts.external
      opts.target opts.isDev)
  else some (bundleBuildID opts)

/-! ### Specification-side restatement of the single-package BuildID -/

/-- The single-package BuildID exactly as the specification's sentence
assembles it: `v<BV>/<name>@<version>/<targetSegment>/<filename>`, with
`targetSegment` the target or `external=<joined>/<target>`, and `filename`
the submodule (else basename of the name) suffixed `.development` when dev. -/
def specSingleBuildID (pkg : Module) (external : List Module) (target : String)
    (isDev : Bool) : String :=
  let targetSegment :=
    if external = [] then target
    else "external=" ++ replaceAll (moduleSliceString external) "/" "_" ++ "/" ++ target
  let filename :=
    (if pkg.submodule = "" then pathBase pkg.name else pkg.submodule) ++
      (if isDev then ".development" else "")
  "v" ++ toString buildVersion ++ "/" ++ pkg.name ++ "@" ++ pkg.version ++ "/" ++
    targetSegment ++ "/" ++ filename

theorem singleBuildID_eq_spec (pkg : Module) (ext : List Module) (t : String)
    (d : Bool) : singleBuildID pkg ext t d = specSingleBuildID pkg ext t d := by
  unfold singleBuildID specSingleBuildID
  by_cases hs : pkg.submodule = "" <;> cases d <;> cases ext <;>
    simp [hs, String.append_empty]

/-- C1: for a build request with two or more packages the BuildID is a pure
function of the request: permuting the `packages` list and the `external`
list (target and dev flag unchanged) yields the identical multi-package
BuildID, and that BuildID is `bundle-` followed by the lower-case base32
encoding of the SHA-1 of the canonical string
`v<BV>/<sorted packages>/<sorted externals>/<target>/<dev>`. -/
theorem bundle_buildID_perm_invariant (o1 o2 : BuildOptions)
    (hn : 2 ≤ o1.packages.length)
    (hp : o1.packages.Perm o2.packages)
    (he : o1.external.Perm o2.external)
    (ht : o1.target = o2.target) (hd : o1.isDev = o2.isDev) :
    buildIDOf o1 = buildIDOf o2 ∧
      buildIDOf o1 = some ("bundle-" ++
        (base32encode (sha1 (strBytes
          ("v" ++ toString buildVersion ++ "/" ++
            moduleSliceString (sortModules o1.packages) ++ "/" ++
            moduleSliceString (sortModules o1.external) ++ "/" ++
            o1.target ++ "/" ++
            (if o1.isDev then "true" else "false"))))).toLower) := by
  have hl2 : o2.packages.length = o1.packages.length := hp.length_eq.symm
  have h0 : ¬ o1.packages.length = 0 := by omega
  have h1 : ¬ o1.packages.length = 1 := by omega
  constructor
  · unfold buildIDOf
    rw [hl2]
    simp only [h0, h1, if_false]
    unfold bundleBuildID
    rw [sortModules_perm_eq hp, sortModules_perm_eq he, ht, hd]
  · unfold buildIDOf
    simp only [h0, h1, if_false]
    rfl

/-- Witness for C1 at a concrete two-package request and its reversal. -/
theorem bundle_buildID_perm_invariant_witness :
    buildIDOf (BuildOptions.mk
      [Module.mk "lit-html" "2.0.0" "", Module.mk "lit-element" "3.0.0" ""]
      [Module.mk "react" "17.0.2" "", Module.mk "react-dom" "17.0.2" ""]
      "es2020" false) =
    buildIDOf (BuildOptions.mk
      [Module.mk "lit-element" "3.0.0" "", Module.mk "lit-html" "2.0.0" ""]
      [Module.mk "react-dom" "17.0.2" "", Module.mk "react" "17.0.2" ""]
      "es2020" false) :=
  (bundle_buildID_perm_invariant
    (BuildOptions.mk
      [Module.mk "lit-html" "2.0.0" "", Module.mk "lit-element" "3.0.0" ""]
      [Module.mk "react" "17.0.2" "", Module.mk "react-dom" "17.0.2" ""]
      "es2020" false)
    (BuildOptions.mk
      [Module.mk "lit-element" "3.0.0" "", Module.mk "lit-html" "2.0.0" ""]
      [Module.mk "react-dom" "17.0.2" "", Module.mk "react" "17.0.2" ""]
      "es2020" false)
    (by decide) (by decide) (by decide) rfl rfl).1

/-- C3: for every single-package build request the BuildID is the unhashed,
human-readable string `v<BV>/<name>@<version>/<targetSegment>/<filename>`,
with `targetSegment` the target (or `external=<joined>/<target>` when
externals are present, `/` in the joined refs replaced by `_`) and
`filename` the submodule if present else `basename(name)`, suffixed
`.development` when dev. -/
theorem single_package_buildID (opts : BuildOptions) (pkg : Module)
    (h : opts.packages = [pkg]) :
    buildIDOf opts =
      some (specSingleBuildID pkg opts.external opts.target opts.isDev) := by
  unfold buildIDOf
  rw [h]
  simp [singleBuildID_eq_spec]

/-- Witness for C3: a submodule + externals + dev request produces the
expected human-readable BuildID. -/
theorem single_package_buildID_witness :
    buildIDOf (BuildOptions.mk [Module.mk "react-dom" "17.0.2" "server"]
      [Module.mk "react" "17.0.2" ""] "es2020" true) =
      some "v1/react-dom@17.0.2/external=react@17.0.2/es2020/server.development" := by
  rw [single_package_buildID _ (Module.mk "react-dom" "17.0.2" "server") rfl]
  rfl

/-! ### The npm manifest data consumed by `build` -/

/-- The fields of `NpmPackage` that `build` reads (maps are association
lists; a missing key behaves like Go's zero value `""`). -/
structure NpmPackage where
  name : String
  version : String
  main : String
  module : String
  type : String
  types : String
  typings : String
  definedExports : List (String × String)
  dependencies : List (String × String)
  peerDependencies : List (String × String)
deriving DecidableEq

/-- Go map indexing with the zero value `""` for a missing key. -/
def mapGet (m : List (String × String)) (k : String) : String :=
  match m.find? (fun p => p.1 == k) with
  | some p => p.2
  | none => ""

/-- `ImportMeta` of `server/build.go`: the manifest plus computed exports
and dts path. -/
structure ImportMeta where
  pkg : NpmPackage
  exports : List String
  dts : String
deriving DecidableEq

/-! ### The cache lookup at the head of `build` (lines 97–123)

The key/value store and the JSON codec are external collaborators; a record
is modelled by its css bytes together with the *decoding outcome* of its
stored `importMeta` JSON (`none` when `json.Unmarshal` fails).  `db.Delete`
is the store's record removal; the filesystem is the set of existing paths.
Go's `path.Join(storageDir, "builds", id + ext)` is the plain
slash-concatenation for the clean inputs used here. -/

/-- A decoded `importMeta` map. -/
abbrev MetaMap := List (String × ImportMeta)

/-- A key/value cache record as `build` reads it. -/
structure KVRecord where
  importMeta : Option MetaMap
  css : List Nat
deriving DecidableEq

/-- The store state: key/value records and the set of files on disk. -/
structure Store where
  db : List (String × KVRecord)
  files : List String
deriving DecidableEq

/-- `db.Get(q.Alias(id), ...)`: `none` models `postdb.ErrNotFound`. -/
def dbGet (st : Store) (k : String) : Option KVRecord :=
  (st.db.find? (fun p => p.1 == k)).map Prod.snd

/-- `db.Delete(q.Alias(id))` (the store primitive; it succeeds). -/
def dbDelete (st : Store) (k : String) : Store :=
  { st with db := st.db.filter (fun p => !(p.1 == k)) }

/-- `fileExists` of the repository (an `os.Lstat` probe). -/
def fileExists (st : Store) (path : String) : Bool :=
  st.files.contains path

/-- What the head of `build` does with the cache: return early as a hit
(`// has built`), or fall through to a rebuild (a miss). -/
inductive LookupOutcome
  | hit (importMeta : Option MetaMap) (hasCSS : Bool)
  | miss
deriving DecidableEq

/-- Lines 97–123 of `build`: get the record; on `json.Unmarshal` failure
delete it; compute `hasCSS` from the css bit and the `.css` sidecar; if the
`.js` sidecar exists return early (a hit), else delete the record and fall
through to the build (a miss). -/
def lookupBuild (st : Store) (storageDir buildID : String) :
    LookupOutcome × Store :=
  match dbGet st buildID with
  | none => (LookupOutcome.miss, st)
  | some r =>
    let st1 := if r.importMeta.isNone then dbDelete st buildID else st
    let hasCSS :=
      if r.css = [1] then
        fileExists st1 (storageDir ++ "/builds/" ++ buildID ++ ".css")
      else false
    if fileExists st1 (storageDir ++ "/builds/" ++ buildID ++ ".js") then
      (LookupOutcome.hit r.importMeta hasCSS, st1)
    else
      (LookupOutcome.miss, dbDelete st1 buildID)

theorem dbGet_dbDelete (st : Store) (k : String) :
    dbGet (dbDelete st k) k = none := by
  have h : (st.db.filter (fun p => !(p.1 == k))).find? (fun p => p.1 == k) = none := by
    rw [List.find?_eq_none]
    intro x hx
    have := List.of_mem_filter hx
    simpa using this
  unfold dbGet dbDelete
  simp [h]

theorem fileExists_dbDelete (st : Store) (k p : String) :
    fileExists (dbDelete st k) p = fileExists st p := rfl

/-- C2 counterexample: a record whose stored meta JSON fails to decode but
whose `.js` sidecar exists is returned as a cache hit (with decoded meta
absent), not as a Miss. -/
theorem lookup_corrupt_meta_hit_counterexample :
    (lookupBuild (Store.mk [("b", KVRecord.mk none [0])] ["s/builds/b.js"])
        "s" "b").1 ≠ LookupOutcome.miss ∧
    (lookupBuild (Store.mk [("b", KVRecord.mk none [0])] ["s/builds/b.js"])
        "s" "b").1 = LookupOutcome.hit none false := by
  constructor
  · decide
  · decide

/-- C2 amended: a record whose meta fails to decode is always purged, and a
record whose `.js` sidecar is missing is purged with the Lookup reporting
Miss (the self-heal path); but when the meta fails to decode while the `.js`
sidecar exists, `build` still returns early as a hit (with no decoded meta)
after the purge. -/
theorem lookup_corrupt_behaviour (st : Store) (dir id : String) (r : KVRecord)
    (hget : dbGet st id = some r)
    (hcorrupt : r.importMeta = none ∨
      fileExists st (dir ++ "/builds/" ++ id ++ ".js") = false) :
    dbGet (lookupBuild st dir id).2 id = none ∧
    (fileExists st (dir ++ "/builds/" ++ id ++ ".js") = false →
      (lookupBuild st dir id).1 = LookupOutcome.miss) ∧
    (r.importMeta = none →
      fileExists st (dir ++ "/builds/" ++ id ++ ".js") = true →
      (lookupBuild st dir id).1 = LookupOutcome.hit none
        (if r.css = [1] then
          fileExists st (dir ++ "/builds/" ++ id ++ ".css") else false)) := by
  unfold lookupBuild
  rw [hget]
  rcases hmeta : r.importMeta with _ | m
  · by_cases hjs : fileExists st (dir ++ "/builds/" ++ id ++ ".js") = true
    · simp [hmeta, fileExists_dbDelete, hjs, dbGet_dbDelete]
    · simp only [Bool.not_eq_true] at hjs
      simp [hmeta, fileExists_dbDelete, hjs, dbGet_dbDelete]
  · rcases hcorrupt with hc | hjs
    · rw [hmeta] at hc; cases hc
    · simp [hmeta, hjs, fileExists_dbDelete, dbGet_dbDelete]

/-- Witness for the amended C2 at a concrete store: the `.js` sidecar was
deleted while the record remains; the next lookup misses and purges. -/
theorem lookup_corrupt_behaviour_witness :
    dbGet (lookupBuild (Store.mk
        [("b", KVRecord.mk (some []) [0])] []) "s" "b").2 "b" = none ∧
    (lookupBuild (Store.mk
        [("b", KVRecord.mk (some []) [0])] []) "s" "b").1 =
      LookupOutcome.miss := by
  have h := lookup_corrupt_behaviour
    (Store.mk [("b", KVRecord.mk (some []) [0])] []) "s" "b"
    (KVRecord.mk (some []) [0]) (by decide) (Or.inr (by decide))
  exact ⟨h.1, h.2.1 (by decide)⟩

/-- C9: a record that decodes successfully, has css bit 1, and whose `.js`
sidecar exists is returned as a hit with `hasCSS = false` when the `.css`
sidecar is missing; the store is left untouched (no purge, no rebuild). -/
theorem lookup_missing_css_still_hit (st : Store) (dir id : String)
    (r : KVRecord) (m : MetaMap)
    (hget : dbGet st id = some r) (hm : r.importMeta = some m)
    (hcss : r.css = [1])
    (hjs : fileExists st (dir ++ "/builds/" ++ id ++ ".js") = true)
    (hnocss : fileExists st (dir ++ "/builds/" ++ id ++ ".css") = false) :
    lookupBuild st dir id = (LookupOutcome.hit (some m) false, st) := by
  unfold lookupBuild
  rw [hget]
  simp [hm, hcss, hjs, hnocss]

/-- Witness for C9: concrete store with css bit set and no `.css` file. -/
theorem lookup_missing_css_still_hit_witness :
    lookupBuild (Store.mk [("b", KVRecord.mk (some []) [1])] ["s/builds/b.js"])
        "s" "b" =
      (LookupOutcome.hit (some []) false,
        Store.mk [("b", KVRecord.mk (some []) [1])] ["s/builds/b.js"]) :=
  lookup_missing_css_still_hit
    (Store.mk [("b", KVRecord.mk (some []) [1])] ["s/builds/b.js"]) "s" "b"
    (KVRecord.mk (some []) [1]) [] (by decide) rfl rfl (by decide) (by decide)

/-! ### Peer classification (`build`, lines 178–209) -/

/-- Lines 180–196: a collected peer name stays a peer unless a requested
package has that name, or the name occurs in the `Dependencies` of some
requested package's `ImportMeta`. -/
def isTruePeer (packages : List Module) (metas : List ImportMeta)
    (name : String) : Bool :=
  let peer := !(packages.any (fun pkg => pkg.name == name))
  if peer then
    !(metas.any (fun im => im.pkg.dependencies.any (fun dep => dep.1 == name)))
  else false

/-- Lines 178–209: the `(name, version)` pairs entered into `peerPackages`
and appended to the install list, the version overridden by a matching
external ref. -/
def classifyPeers (packages : List Module) (metas : List ImportMeta)
    (external : List Module) (peerDeps : List (String × String)) :
    List (String × String) :=
  peerDeps.filterMap (fun nv =>
    if isTruePeer packages metas nv.1 then
      some (nv.1,
        match external.find? (fun m => m.name == nv.1) with
        | some m => m.version
        | none => nv.2)
    else none)

theorem isTruePeer_iff (packages : List Module) (metas : List ImportMeta)
    (q : String) :
    isTruePeer packages metas q = true ↔
      ((∀ p ∈ packages, p.name ≠ q) ∧
        (∀ im ∈ metas, ∀ d ∈ im.pkg.dependencies, d.1 ≠ q)) := by
  unfold isTruePeer
  cases hA : packages.any (fun pkg => pkg.name == q) <;>
    simp_all [List.any_eq_true]
  constructor
  · intro h im him a b hab haq
    exact h im him b (haq ▸ hab)
  · intro h im him b hqb
    exact h im him q b hqb rfl

/-- C4: a name collected from the peerDependencies of the requested
packages is classified as a true peer (installed and externalised) iff it
is not the name of a requested package and does not occur in the
dependencies of any requested package's ImportMeta. -/
theorem peer_classification (packages : List Module) (metas : List ImportMeta)
    (external : List Module) (peerDeps : List (String × String)) (q : String)
    (hq : q ∈ peerDeps.map Prod.fst) :
    q ∈ (classifyPeers packages metas external peerDeps).map Prod.fst ↔
      ((∀ p ∈ packages, p.name ≠ q) ∧
        (∀ im ∈ metas, ∀ d ∈ im.pkg.dependencies, d.1 ≠ q)) := by
  unfold classifyPeers
  constructor
  · rintro hmem
    simp only [List.mem_map, List.mem_filterMap] at hmem
    obtain ⟨p, ⟨nv, _, hf⟩, hp1⟩ := hmem
    by_cases ht : isTruePeer packages metas nv.1 = true
    · rw [if_pos ht] at hf
      have hname : p.1 = nv.1 := by
        cases hfind : external.find? (fun m => m.name == nv.1) <;>
          simp [hfind] at hf <;> simp [← hf]
      rw [← hp1, hname]
      exact (isTruePeer_iff packages metas nv.1).mp ht
    · rw [if_neg ht] at hf; cases hf
  · rintro hcond
    simp only [List.mem_map] at hq
    obtain ⟨nv, hnv, hq1⟩ := hq
    have ht : isTruePeer packages metas nv.1 = true := by
      rw [hq1]; exact (isTruePeer_iff packages metas q).mpr hcond
    simp only [List.mem_map, List.mem_filterMap]
    refine ⟨(nv.1,
      match external.find? (fun m => m.name == nv.1) with
      | some m => m.version
      | none => nv.2), ⟨nv, hnv, by rw [if_pos ht]⟩, hq1⟩

/-- Witness for C4: for a request of `react-dom` whose meta declares peer
`react` and dependency `scheduler`, `react` is a true peer. -/
theorem peer_classification_witness :
    "react" ∈ (classifyPeers [Module.mk "react-dom" "17.0.2" ""]
      [ImportMeta.mk (NpmPackage.mk "react-dom" "17.0.2" "index.js" "" "" ""
        "" [] [("scheduler", "^0.20.2")] [("react", "^17.0.2")]) [] ""]
      [] [("react", "17.0.2")]).map Prod.fst :=
  (peer_classification [Module.mk "react-dom" "17.0.2" ""]
    [ImportMeta.mk (NpmPackage.mk "react-dom" "17.0.2" "index.js" "" "" ""
      "" [] [("scheduler", "^0.20.2")] [("react", "^17.0.2")]) [] ""]
    [] [("react", "17.0.2")] "react" (by decide)).mpr (by decide)

/-! ### ImportMeta resolution (`build`, lines 163–174 and 238–258) -/

/-- Split a character list on a separator, keeping empty groups (the char
level of Go's `strings.Split`). -/
def splitChars (sep : Char) : List Char → List (List Char)
  | [] => [[]]
  | c :: cs =>
    let r := splitChars sep cs
    if c == sep then [] :: r
    else
      match r with
      | [] => [[c]]
      | g :: gs => (c :: g) :: gs

/-- The element walk of Go `path.Clean`: drop empty and `.` elements, let
`..` pop (kept at the head of a rootless path, dropped at the root). -/
def cleanParts (rooted : Bool) : List String → List String → List String
  | stack, [] => stack.reverse
  | stack, p :: rest =>
    if p = "" ∨ p = "." then cleanParts rooted stack rest
    else if p = ".." then
      match stack with
      | [] => if rooted then cleanParts rooted [] rest
              else cleanParts rooted [".."] rest
      | top :: s =>
        if top = ".." then cleanParts rooted (".." :: top :: s) rest
        else cleanParts rooted s rest
    else cleanParts rooted (p :: stack) rest

/-- Go `path.Clean`. -/
def pathClean (s : String) : String :=
  let rooted := match s.data with | '/' :: _ => true | _ => false
  let parts := (splitChars '/' s.data).map String.mk
  let body := String.intercalate "/" (cleanParts rooted [] parts)
  if rooted then (if body = "" then "/" else "/" ++ body)
  else (if body = "" then "." else body)

/-- Go `path.Join` of two elements: join the non-empty ones and clean. -/
def pathJoin (a b : String) : String :=
  if a = "" ∧ b = "" then ""
  else if a = "" then pathClean b
  else if b = "" then pathClean a
  else pathClean (a ++ "/" ++ b)

/-- Lines 163–174 of `build`: the registry-time resolution pass over a
requested package's manifest. -/
def resolveMetaPhase1 (p : NpmPackage) (submodule : String) : NpmPackage :=
  let m1 := if p.module = "" ∧ p.type = "module" then { p with module := p.main }
            else p
  let m2 := if m1.module = "" ∧ mapGet m1.definedExports "import" ≠ "" then
              { m1 with module := mapGet m1.definedExports "import" }
            else m1
  if submodule ≠ "" then
    { m2 with main := submodule, module := "", types := "", typings := "" }
  else m2

/-- Lines 238–258 of `build`: the install-time re-derivation from
`<pkg>/<submodule>/package.json` (`sub = none` when that file does not
exist; the export-probing fallback of lines 259–270 is a separate branch
outside this fragment). -/
def resolveMetaPhase2 (meta : NpmPackage) (submodule : String)
    (sub : Option NpmPackage) : NpmPackage :=
  if submodule = "" then meta else
  match sub with
  | none => meta
  | some sp =>
    let m1 := if sp.main ≠ "" then { meta with main := pathJoin submodule sp.main }
              else meta
    let m2 := if sp.module ≠ "" then { m1 with module := pathJoin submodule sp.module }
              else if meta.type = "module" ∧ sp.main ≠ "" then
                { m1 with module := pathJoin submodule sp.main }
              else m1
    let m3 := if sp.types ≠ "" then { m2 with types := pathJoin submodule sp.types }
              else m2
    if sp.typings ≠ "" then { m3 with typings := pathJoin submodule sp.typings }
    else m3

/-- The composite resolution the claim describes: both passes in program
order. -/
def resolveMeta (p : NpmPackage) (submodule : String)
    (sub : Option NpmPackage) : NpmPackage :=
  resolveMetaPhase2 (resolveMetaPhase1 p submodule) submodule sub

/-- The resolution rules exactly as the claim's sentence lists them:
rule 1 `module := main` when module empty and type is "module"; rule 2
`module := definedExports["import"]` when still empty and that entry is
non-empty; rule 3 for a non-empty submodule set `main := submodule`, clear
`module`/`types`/`typings`, and when the subpackage manifest exists
re-derive each of the four fields from the corresponding field of that
file, prefixed by the submodule path. -/
def claimMetaRules (p : NpmPackage) (submodule : String)
    (sub : Option NpmPackage) : NpmPackage :=
  let m1 := if p.module = "" ∧ p.type = "module" then { p with module := p.main }
            else p
  let m2 := if m1.module = "" ∧ mapGet m1.definedExports "import" ≠ "" then
              { m1 with module := mapGet m1.definedExports "import" }
            else m1
  if submodule = "" then m2 else
  let cleared := { m2 with main := submodule, module := "", types := "", typings := "" }
  match sub with
  | none => cleared
  | some sp =>
    { cleared with
      main := if sp.main ≠ "" then pathJoin submodule sp.main else cleared.main,
      module := if sp.module ≠ "" then pathJoin submodule sp.module else "",
      types := if sp.types ≠ "" then pathJoin submodule sp.types else "",
      typings := if sp.typings ≠ "" then pathJoin submodule sp.typings else "" }

/-- The amended rules: identical to the claim's except that when the
subpackage manifest declares no `module` but the requesting package's
manifest `type` is `"module"` and the subpackage declares a `main`, the
`module` field falls back to the submodule-prefixed subpackage `main`. -/
def amendedMetaRules (p : NpmPackage) (submodule : String)
    (sub : Option NpmPackage) : NpmPackage :=
  let m1 := if p.module = "" ∧ p.type = "module" then { p with module := p.main }
            else p
  let m2 := if m1.module = "" ∧ mapGet m1.definedExports "import" ≠ "" then
              { m1 with module := mapGet m1.definedExports "import" }
            else m1
  if submodule = "" then m2 else
  let cleared := { m2 with main := submodule, module := "", types := "", typings := "" }
  match sub with
  | none => cleared
  | some sp =>
    { cleared with
      main := if sp.main ≠ "" then pathJoin submodule sp.main else cleared.main,
      module :=
        if sp.module ≠ "" then pathJoin submodule sp.module
        else if p.type = "module" ∧ sp.main ≠ "" then pathJoin submodule sp.main
        else "",
      types := if sp.types ≠ "" then pathJoin submodule sp.types else "",
      typings := if sp.typings ≠ "" then pathJoin submodule sp.typings else "" }

/-- C7 counterexample: a `type:"module"` package with a submodule whose own
manifest declares `main` but no `module`: the code falls `module` back to
the prefixed `main`; the claim's rules leave `module` cleared. -/
theorem meta_rules_counterexample :
    resolveMeta
        (NpmPackage.mk "pkg" "1.0.0" "index.js" "" "module" "" "" [] [] [])
        "server"
        (some (NpmPackage.mk "" "" "lib.js" "" "" "" "" [] [] [])) ≠
      claimMetaRules
        (NpmPackage.mk "pkg" "1.0.0" "index.js" "" "module" "" "" [] [] [])
        "server"
        (some (NpmPackage.mk "" "" "lib.js" "" "" "" "" [] [] [])) ∧
    (resolveMeta
        (NpmPackage.mk "pkg" "1.0.0" "index.js" "" "module" "" "" [] [] [])
        "server"
        (some (NpmPackage.mk "" "" "lib.js" "" "" "" "" [] [] []))).module =
      "server/lib.js" ∧
    (claimMetaRules
        (NpmPackage.mk "pkg" "1.0.0" "index.js" "" "module" "" "" [] [] [])
        "server"
        (some (NpmPackage.mk "" "" "lib.js" "" "" "" "" [] [] []))).module =
      "" := by
  refine ⟨by decide, by decide, by decide⟩

/-- C7 amended: the source's two resolution passes compute exactly the
claim's ordered rules plus the module-from-main fallback. -/
theorem resolveMeta_eq_amended (p : NpmPackage) (submodule : String)
    (sub : Option NpmPackage) :
    resolveMeta p submodule sub = amendedMetaRules p submodule sub := by
  obtain ⟨n, v, ma, mo, ty, tys, typ, de, dep, peer⟩ := p
  rcases sub with _ | sp
  · unfold resolveMeta resolveMetaPhase1 resolveMetaPhase2 amendedMetaRules
    by_cases h0 : submodule = "" <;> simp [h0]
  · obtain ⟨n2, v2, ma2, mo2, ty2, tys2, typ2, de2, dep2, peer2⟩ := sp
    unfold resolveMeta resolveMetaPhase1 resolveMetaPhase2 amendedMetaRules
    by_cases h0 : submodule = ""
    · simp [h0]
    · by_cases hmo : mo = "" <;> by_cases hty : ty = "module" <;>
        by_cases hde : mapGet de "import" = "" <;> by_cases hma : ma = "" <;>
        by_cases h2m : ma2 = "" <;> by_cases h2mo : mo2 = "" <;>
        by_cases h2ty : tys2 = "" <;> by_cases h2typ : typ2 = "" <;>
        simp_all

/-! ### The post-processor (`build`, lines 640–679) -/

/-- `bytes.Contains`: does `pat` occur contiguously in `hay`? -/
def containsSub (hay pat : List Char) : Bool :=
  match hay with
  | [] => pat.isEmpty
  | c :: t => listStartsWith (c :: t) pat || containsSub t pat

/-- `identify` of `server/build.go`: `/`, `-`, `@`, `.` become `_`. -/
def identify (importPath : String) : String :=
  String.mk (importPath.data.map (fun c =>
    if c == '/' || c == '-' || c == '@' || c == '.' then '_' else c))

/-- Lines 651–664: for each CJS peer entry with a non-empty URL, rewrite
`require("<name>")` in the output to `__<id>$`, in entry order. -/
def rewritePeerRequires (peer : List (String × String)) (content : List Char) :
    List Char :=
  peer.foldl
    (fun out entry =>
      if entry.2 ≠ "" then
        let pat := ("require(\"" ++ entry.1 ++ "\")").data
        let rep := ("__" ++ identify entry.1 ++ "$").data
        replaceChars out.length out pat rep
      else out)
    content

/-- The setImmediate shim line of line 671. -/
def setImmediateShim (eol : String) : String :=
  "__setImmediate$ = (cb, args) => setTimeout(cb, 0, ...args);" ++ eol

/-- Lines 643–676 of `build` for one `.js` output: the compatibility
prelude prepended to the output (in emission order) and the peer-rewritten
output that follows it.  The `__process$`/`__Buffer$` probes run on the raw
bundler output; the `__global$`/`__setImmediate$$`/`__rResolve$` probes run
after the peer `require` rewrite, exactly as in the source. -/
def postProcessJs (env eol : String) (peer : List (String × String))
    (content : List Char) : List String × List Char :=
  let l1 := if containsSub content ("__process$").data then
      ["import __process$ from \"/v" ++ toString buildVersion ++
        "/_node_process.js\";" ++ eol ++ "__process$.env.NODE_ENV=\"" ++ env ++
        "\";" ++ eol]
    else []
  let l2 := if containsSub content ("__Buffer$").data then
      ["import \x7b Buffer as __Buffer$ \x7d from \"/v" ++ toString buildVersion ++
        "/_node_buffer.js\";" ++ eol]
    else []
  let peerLines := (peer.filter (fun e => e.2 ≠ "")).map (fun e =>
      "import __" ++ identify e.1 ++ "$ from \"" ++ e.2 ++ "\";" ++ eol)
  let content1 := rewritePeerRequires peer content
  let l3 := if containsSub content1 ("__global$").data then
      ["if (typeof __global$ === \"undefined\") var __global$ = window;" ++ eol]
    else []
  let l4 := if containsSub content1 ("__setImmediate$$").data then
      [setImmediateShim eol]
    else []
  let l5 := if containsSub content1 ("__rResolve$").data then
      ["var __rResolve$ = v => v;" ++ eol]
    else []
  (l1 ++ l2 ++ peerLines ++ l3 ++ l4 ++ l5, content1)

theorem string_data_append (a b : String) : (a ++ b).data = a.data ++ b.data := rfl

theorem ne_of_strHead {a b : String} {x y : Char}
    (hx : a.data.head? = some x) (hy : b.data.head? = some y) (hxy : x ≠ y) :
    a ≠ b := by
  intro h
  rw [h, hy] at hx
  exact hxy (Option.some.inj hx).symm

theorem mem_if_singleton {α : Type} {a x : α} {c : Prop} [Decidable c]
    (h : a ∈ (if c then [x] else [])) : a = x := by
  split_ifs at h <;> simp_all

/-- C8: the setImmediate shim line is prepended iff the peer-rewritten
`.js` output contains the doubled token `__setImmediate$$` (with no CJS
peer rewrites — the common case — the probe target is the bundler output
itself, since the rewrite is the identity there); output containing only
the single-dollar `__setImmediate$` yields no shim. -/
theorem setImmediate_shim_iff (env eol : String)
    (peer : List (String × String)) (content : List Char) :
    (setImmediateShim eol ∈ (postProcessJs env eol peer content).1 ↔
      containsSub (rewritePeerRequires peer content)
        ("__setImmediate$$").data = true) ∧
    rewritePeerRequires [] content = content := by
  refine ⟨?_, rfl⟩
  unfold postProcessJs
  simp only [List.mem_append]
  constructor
  · intro h
    rcases h with ((((h | h) | h) | h) | h) | h
    · exact absurd (mem_if_singleton h)
        (ne_of_strHead (x := '_') (y := 'i') rfl rfl (by decide))
    · exact absurd (mem_if_singleton h)
        (ne_of_strHead (x := '_') (y := 'i') rfl rfl (by decide))
    · simp only [List.mem_map] at h
      obtain ⟨e, _, he⟩ := h
      exact absurd he.symm
        (ne_of_strHead (x := '_') (y := 'i') rfl rfl (by decide))
    · exact absurd (mem_if_singleton h)
        (ne_of_strHead (x := '_') (y := 'i') rfl rfl (by decide))
    · by_cases hc : containsSub (rewritePeerRequires peer content)
        ("__setImmediate$$").data = true
      · exact hc
      · rw [if_neg hc] at h; cases h
    · exact absurd (mem_if_singleton h)
        (ne_of_strHead (x := '_') (y := 'v') rfl rfl (by decide))
  · intro h
    refine Or.inl (Or.inr ?_)
    rw [if_pos h]
    exact List.mem_singleton.mpr rfl

/-! ### The esbuild retry loop (`build`, lines 459–609) -/

/-- One esbuild output file. -/
structure OutFile where
  path : String
  contents : List Char
deriving DecidableEq

/-- One esbuild invocation's result as `build` consumes it. -/
structure EsbuildResult where
  errors : List String
  outputs : List OutFile
deriving DecidableEq

/-- Lines 590–604: walk the error texts in order.  A `Could not resolve
"x"` error contributes `x` (the second `"`-split field) to
`indirectRequires` and `extraExternals` when non-empty and fresh; any other
error text is fatal (`esbuild: ...`). -/
def collectMissing : List String → List String → List String →
    Except String (List String × List String)
  | [], indirect, extra => Except.ok (indirect, extra)
  | e :: rest, indirect, extra =>
    if listStartsWith e.data ("Could not resolve \"").data then
      let missing := ((splitChars '"' e.data).map String.mk).getD 1 ""
      if missing ≠ "" ∧ missing ∉ indirect then
        collectMissing rest (indirect ++ [missing]) (extra ++ [missing])
      else collectMissing rest indirect extra
    else Except.error ("esbuild: " ++ e)

/-- The `Could not resolve` names an error list yields, in order. -/
def resolveMissingNames (errors : List String) : List String :=
  errors.filterMap (fun e =>
    if listStartsWith e.data ("Could not resolve \"").data then
      let m := ((splitChars '"' e.data).map String.mk).getD 1 ""
      if m = "" then none else some m
    else none)

/-- How one pass of the `esbuild:` loop ends. -/
inductive LoopResult
  | done (res : EsbuildResult) (externals : List String)
  | fatal (msg : String)
  | fuelOut
deriving DecidableEq

/-- The `esbuild:` retry loop: run the bundler against the current
externals; with no errors (or with errors but no fresh missing names) the
current result stands; a non-resolution error is fatal; otherwise append
the fresh names to the externals and `goto esbuild`.  `fuel` bounds the
number of invocations (the Go loop is unbounded; C6 shows enough fuel is
never exhausted). -/
def esbuildLoop (run : List String → EsbuildResult) :
    Nat → List String → List String → LoopResult
  | 0, _, _ => LoopResult.fuelOut
  | fuel + 1, externals, indirect =>
    let res := run externals
    if res.errors.isEmpty then LoopResult.done res externals
    else
      match collectMissing res.errors indirect [] with
      | Except.error e => LoopResult.fatal e
      | Except.ok (indirect1, extra) =>
        if extra.isEmpty then LoopResult.done res externals
        else esbuildLoop run fuel (externals ++ extra) indirect1

theorem collectMissing_spec : ∀ (errors ind extra ind1 extra1 : List String),
    (∀ x ∈ extra, x ∈ ind) →
    collectMissing errors ind extra = Except.ok (ind1, extra1) →
    (∀ x ∈ ind, x ∈ ind1) ∧ (∀ x ∈ extra1, x ∈ ind1) ∧
      (∀ x ∈ extra1, x ∈ extra ∨
        (x ∈ resolveMissingNames errors ∧ x ∉ ind)) := by
  intro errors
  induction errors with
  | nil =>
    intro ind extra ind1 extra1 hinv h
    injection h with h
    injection h with h1 h2
    subst h1; subst h2
    exact ⟨fun x hx => hx, hinv, fun x hx => Or.inl hx⟩
  | cons e rest ih =>
    intro ind extra ind1 extra1 hinv h
    unfold collectMissing at h
    by_cases hp : listStartsWith e.data ("Could not resolve \"").data = true
    · rw [if_pos hp] at h
      set m := ((splitChars '"' e.data).map String.mk).getD 1 "" with hm
      by_cases hnew : m ≠ "" ∧ m ∉ ind
      · rw [if_pos hnew] at h
        have hinv2 : ∀ x ∈ extra ++ [m], x ∈ ind ++ [m] := by
          intro x hx
          rcases List.mem_append.mp hx with hx | hx
          · exact List.mem_append.mpr (Or.inl (hinv x hx))
          · exact List.mem_append.mpr (Or.inr hx)
        obtain ⟨g1, g2, g3⟩ := ih (ind ++ [m]) (extra ++ [m]) ind1 extra1 hinv2 h
        have hmn : m ∈ resolveMissingNames (e :: rest) := by
          unfold resolveMissingNames
          rw [List.filterMap_cons]
          rw [if_pos hp, ← hm, if_neg hnew.1]
          exact List.mem_cons_self _ _
        have hrest : ∀ x, x ∈ resolveMissingNames rest →
            x ∈ resolveMissingNames (e :: rest) := by
          intro x hx
          unfold resolveMissingNames
          rw [List.filterMap_cons]
          rw [if_pos hp, ← hm, if_neg hnew.1]
          exact List.mem_cons_of_mem _ hx
        refine ⟨fun x hx => g1 x (List.mem_append.mpr (Or.inl hx)), g2, ?_⟩
        intro x hx
        rcases g3 x hx with hx2 | ⟨hx2, hx3⟩
        · rcases List.mem_append.mp hx2 with hx3 | hx3
          · exact Or.inl hx3
          · rw [List.mem_singleton.mp hx3]
            exact Or.inr ⟨hmn, hnew.2⟩
        · refine Or.inr ⟨hrest x hx2, fun hc => hx3 (List.mem_append.mpr (Or.inl hc))⟩
      · rw [if_neg hnew] at h
        obtain ⟨g1, g2, g3⟩ := ih ind extra ind1 extra1 hinv h
        refine ⟨g1, g2, ?_⟩
        intro x hx
        rcases g3 x hx with hx2 | ⟨hx2, hx3⟩
        · exact Or.inl hx2
        · refine Or.inr ⟨?_, hx3⟩
          unfold resolveMissingNames
          rw [List.filterMap_cons, if_pos hp]
          split
          · exact hx2
          · exact List.mem_cons_of_mem _ hx2
    · rw [if_neg hp] at h
      cases h

/-- C6: the retry loop terminates.  If every missing name the bundler can
report lies in the finite universe `U` (the names occurring in the source),
then fuel exceeding the number of `U`-names not yet in `indirectRequires`
is never exhausted; and when a run reports only missing names that are
already in `indirectRequires` (a repeated identical failure), a single
invocation settles the loop — no retry is taken. -/
theorem esbuild_retry_termination (run : List String → EsbuildResult)
    (U : List String)
    (hU : ∀ exts, ∀ x ∈ resolveMissingNames (run exts).errors, x ∈ U) :
    (∀ fuel externals indirect,
        (U.toFinset \ indirect.toFinset).card < fuel →
        esbuildLoop run fuel externals indirect ≠ LoopResult.fuelOut) ∧
    (∀ exts ind,
        (∀ x ∈ resolveMissingNames (run exts).errors, x ∈ ind) →
        esbuildLoop run 1 exts ind ≠ LoopResult.fuelOut) := by
  constructor
  · intro fuel
    induction fuel with
    | zero => intro externals indirect h; omega
    | succ n ih =>
      intro externals indirect hcard
      unfold esbuildLoop
      by_cases he : (run externals).errors.isEmpty = true
      · simp [he]
      · rw [if_neg he]
        cases hcm : collectMissing (run externals).errors indirect [] with
        | error e => simp
        | ok p =>
          obtain ⟨ind1, extra⟩ := p
          by_cases hex : extra.isEmpty = true
          · simp [hex]
          · obtain ⟨g1, g2, g3⟩ := collectMissing_spec (run externals).errors
              indirect [] ind1 extra (by intro x hx; cases hx) hcm
            obtain ⟨x, hx⟩ := List.exists_mem_of_ne_nil extra
              (fun hn => hex (by rw [hn]; rfl))
            have hxU : x ∈ U := by
              rcases g3 x hx with hc | ⟨hc, _⟩
              · cases hc
              · exact hU externals x hc
            have hxnotind : x ∉ indirect := by
              rcases g3 x hx with hc | ⟨_, hc⟩
              · cases hc
              · exact hc
            have hsub : U.toFinset \ ind1.toFinset ⊆
                U.toFinset \ indirect.toFinset := by
              intro y hy
              rw [Finset.mem_sdiff] at hy ⊢
              rw [List.mem_toFinset] at hy ⊢
              refine ⟨hy.1, fun hc => hy.2 ?_⟩
              rw [List.mem_toFinset] at hc ⊢
              exact g1 y hc
            have hxin : x ∈ U.toFinset \ indirect.toFinset := by
              rw [Finset.mem_sdiff, List.mem_toFinset, List.mem_toFinset]
              exact ⟨hxU, hxnotind⟩
            have hxout : x ∉ U.toFinset \ ind1.toFinset := by
              rw [Finset.mem_sdiff, List.mem_toFinset, List.mem_toFinset]
              intro hc
              exact hc.2 (g2 x hx)
            have hlt : (U.toFinset \ ind1.toFinset).card <
                (U.toFinset \ indirect.toFinset).card :=
              Finset.card_lt_card (Finset.ssubset_iff_of_subset hsub |>.mpr
                ⟨x, hxin, hxout⟩)
            have hfin : esbuildLoop run n (externals ++ extra) ind1 ≠
                LoopResult.fuelOut := ih (externals ++ extra) ind1 (by omega)
            simpa [hex] using hfin
  · intro exts ind hall
    unfold esbuildLoop
    by_cases he : (run exts).errors.isEmpty = true
    · simp [he]
    · rw [if_neg he]
      cases hcm : collectMissing (run exts).errors ind [] with
      | error e => simp
      | ok p =>
        obtain ⟨ind1, extra⟩ := p
        obtain ⟨g1, g2, g3⟩ := collectMissing_spec (run exts).errors
          ind [] ind1 extra (by intro x hx; cases hx) hcm
        have hex : extra.isEmpty = true := by
          cases hextra : extra with
          | nil => rfl
          | cons y ys =>
            exfalso
            have hy : y ∈ extra := by rw [hextra]; exact List.mem_cons_self _ _
            rcases g3 y hy with hc | ⟨hc1, hc2⟩
            · cases hc
            · exact hc2 (hall y hc1)
        simp [hex]

/-- A concrete bundler oracle for the C6 witness: it reports a missing
`fs` until `fs` is among the externals. -/
def exampleRun (exts : List String) : EsbuildResult :=
  if "fs" ∈ exts then EsbuildResult.mk [] []
  else EsbuildResult.mk ["Could not resolve \"fs\""] []

/-- Witness for C6: with the one-name universe `fs`, fuel 2 suffices. -/
theorem esbuild_retry_termination_witness :
    esbuildLoop exampleRun 2 [] [] ≠ LoopResult.fuelOut :=
  (esbuild_retry_termination exampleRun ["fs"]
    (by
      intro exts x hx
      unfold exampleRun at hx
      by_cases h : "fs" ∈ exts
      · rw [if_pos h] at hx
        simp [resolveMissingNames] at hx
      · rw [if_neg h] at hx
        have hr : resolveMissingNames ["Could not resolve \"fs\""] = ["fs"] := by
          decide
        rw [show (EsbuildResult.mk ["Could not resolve \"fs\""] []).errors =
          ["Could not resolve \"fs\""] from rfl, hr] at hx
        exact hx)).1 2 [] [] (by decide)

/-! ### The build run after the cache lookup (`build`, lines 125–723)

The claims C5 and C10 are about control flow: which external-collaborator
failures abort the run, whether a failed run writes the key/value record,
and whether the temp dir is removed.  The collaborators' outcomes form an
environment oracle; multi-operation phases whose internals do not bear on
these claims are collapsed to one `Except` per phase, in program order. -/

/-- Does `s` end with `suffix`? (Go `strings.HasSuffix`.) -/
def strEndsWith (s suffix : String) : Bool :=
  listStartsWith s.data.reverse suffix.data.reverse

/-- The environment oracle for one run of `build` past the cache lookup. -/
structure BuildEnv where
  /-- Lines 129–211: registry reads and meta resolution; yields the
  `importMeta` map. -/
  metaPhase : Except String MetaMap
  /-- Line 218 `os.Chdir` (`some err` on failure, after dir creation). -/
  chdir : Option String
  /-- Line 223 `yarnAdd`. -/
  yarnAdd : Option String
  /-- Lines 233–292: submodule manifests and export probing. -/
  probePhase : Except String Unit
  /-- Lines 294–337: types discovery and `copyDTS`. -/
  typesPhase : Except String Unit
  /-- Lines 341–350: peer `package.json` reads. -/
  peerReads : Except String Unit
  /-- The bundler, as a function of the externals list. -/
  esbuildRun : List String → EsbuildResult
  /-- Lines 339–375: the initial externals list. -/
  initialExternals : List String
  /-- Lines 681–693: `.css` sidecar write (`some err` on failure). -/
  cssWrite : Option String
  /-- Lines 698–709: `.js` sidecar write. -/
  jsWrite : Option String
  /-- Line 711 `db.Put`: whether the write would fail — its result is not
  read by the source. -/
  putFails : Bool

/-- The effects of one run that C5/C10 talk about. -/
structure BuildTrace where
  dirCreated : Bool
  dirRemoved : Bool
  putAttempted : Bool
  jsWritten : Bool
deriving DecidableEq

/-- A successful run's data: the returned `importMeta` and css flag. -/
structure BuildDone where
  importMeta : MetaMap
  hasCSS : Bool
deriving DecidableEq

/-- Lines 125–723 of `build` after the cache lookup.  Meta-phase errors
return before `buildDir` is created (line 213); `ensureDir(buildDir)` plus
the `defer os.RemoveAll(buildDir)` of line 216 remove the directory on
every later return; `db.Put` is invoked last, its result discarded, and
`build` returns the meta map and css flag. -/
def buildRun (env : BuildEnv) (fuel : Nat) :
    Except String BuildDone × BuildTrace :=
  match env.metaPhase with
  | Except.error e => (Except.error e, BuildTrace.mk false false false false)
  | Except.ok meta =>
    let t0 := BuildTrace.mk true true false false
    match env.chdir with
    | some e => (Except.error e, t0)
    | none =>
      match env.yarnAdd with
      | some e => (Except.error e, t0)
      | none =>
        match env.probePhase with
        | Except.error e => (Except.error e, t0)
        | Except.ok _ =>
          match env.typesPhase with
          | Except.error e => (Except.error e, t0)
          | Except.ok _ =>
            match env.peerReads with
            | Except.error e => (Except.error e, t0)
            | Except.ok _ =>
              match esbuildLoop env.esbuildRun fuel env.initialExternals [] with
              | LoopResult.fatal e => (Except.error e, t0)
              | LoopResult.fuelOut => (Except.error "esbuild: retry bound", t0)
              | LoopResult.done res _ =>
                match res.outputs.any (fun f => strEndsWith f.path ".css"),
                    env.cssWrite with
                | true, some e => (Except.error e, t0)
                | hasCssOutput, _ =>
                  match env.jsWrite with
                  | some e => (Except.error e, t0)
                  | none =>
                    (Except.ok (BuildDone.mk meta hasCssOutput),
                      BuildTrace.mk true true true true)

/-- C5: a run of `build` that ends in an error never reaches the `db.Put`
(no key/value record is written for the BuildID) and removes the temp
working directory whenever one was created (errors of the meta phase
precede its creation). -/
theorem build_error_no_put_dir_removed (env : BuildEnv) (fuel : Nat)
    (e : String) (h : (buildRun env fuel).1 = Except.error e) :
    (buildRun env fuel).2.putAttempted = false ∧
      ((buildRun env fuel).2.dirCreated = true →
        (buildRun env fuel).2.dirRemoved = true) := by
  revert h
  unfold buildRun
  repeat' split
  all_goals (intro h; simp_all)

/-- Witness for C5: a failing `yarn add` aborts with the dir removed and
no record written. -/
theorem build_error_no_put_dir_removed_witness :
    (buildRun (BuildEnv.mk (Except.ok []) none (some "yarn: exit 1")
        (Except.ok ()) (Except.ok ()) (Except.ok ())
        (fun _ => EsbuildResult.mk [] []) [] none none false) 1).2.putAttempted =
      false ∧
    ((buildRun (BuildEnv.mk (Except.ok []) none (some "yarn: exit 1")
        (Except.ok ()) (Except.ok ()) (Except.ok ())
        (fun _ => EsbuildResult.mk [] []) [] none none false) 1).2.dirCreated = true →
      (buildRun (BuildEnv.mk (Except.ok []) none (some "yarn: exit 1")
        (Except.ok ()) (Except.ok ()) (Except.ok ())
        (fun _ => EsbuildResult.mk [] []) [] none none false) 1).2.dirRemoved = true) :=
  build_error_no_put_dir_removed
    (BuildEnv.mk (Except.ok []) none (some "yarn: exit 1")
      (Except.ok ()) (Except.ok ()) (Except.ok ())
      (fun _ => EsbuildResult.mk [] []) [] none none false) 1
    "yarn: exit 1" rfl

/-- C10: the result of the final `db.Put` is ignored — the run's result is
the same whether or not the record write would fail, and whenever the `.js`
artifact was written the run returns `ok` with the computed meta map and
css flag. -/
theorem build_put_result_ignored (env : BuildEnv) (fuel : Nat) :
    ((buildRun { env with putFails := true } fuel).1 =
      (buildRun { env with putFails := false } fuel).1) ∧
    ((buildRun env fuel).2.jsWritten = true →
      ∃ d : BuildDone, env.metaPhase = Except.ok d.importMeta ∧
        (buildRun env fuel).1 = Except.ok d) := by
  constructor
  · unfold buildRun
    rfl
  · unfold buildRun
    repeat' split
    all_goals (intro h; simp_all)

/-- Witness for C10: a fully successful run returns `ok` with its meta,
with the record write set to fail. -/
theorem build_put_result_ignored_witness :
    ∃ d : BuildDone,
      (BuildEnv.mk (Except.ok []) none none (Except.ok ()) (Except.ok ())
        (Except.ok ()) (fun _ => EsbuildResult.mk [] []) [] none none
        true).metaPhase = Except.ok d.importMeta ∧
      (buildRun (BuildEnv.mk (Except.ok []) none none (Except.ok ())
        (Except.ok ()) (Except.ok ()) (fun _ => EsbuildResult.mk [] []) []
        none none true) 1).1 = Except.ok d :=
  (build_put_result_ignored
    (BuildEnv.mk (Except.ok []) none none (Except.ok ()) (Except.ok ())
      (Except.ok ()) (fun _ => EsbuildResult.mk [] []) [] none none true)
    1).2 rfl

end EsmBuild
